import Mathlib

/-!
Verification development for the download orchestrator of
`scripts/public_logs_downloader.py` (Hamradio-Contest-logs-Archives).

We shallowly embed the parts of the program the specification talks about:

* the `AdaptiveLimiter` class (adaptive concurrency limiter with a debt
  mechanism for shrinking capacity),
* the host-bucketing step of `main` (`server_buckets` construction),
* the per-bucket execution loop (`process_host` / `wrapped_task`),
* the provider-discovery result loop of `main`,
* the exit-code logic of `main`.

Python `int` is embedded as `Int` (arbitrary precision, signed); counters
that the semaphore keeps nonnegative are embedded as `Nat`.  The Python
`float` thresholds and the failure rate `self._fail / total` are embedded
as rationals; every comparison the claims exercise (`4/10 > 3/10`,
`0 < 1/100`, ...) has the same outcome over `Float` and over `ℚ`.
-/

namespace PubLogs

/--
State of one `AdaptiveLimiter` instance
(`scripts/public_logs_downloader.py`, lines 136-201).

* `sema`  — the counter of the `threading.Semaphore` `self._sema`
  (number of permits currently available; never negative).
* `held`  — ghost instrumentation, not stored by the Python class: the
  number of permits currently held by callers (acquired and not yet
  released).  It is needed to state the permit-conservation claim.
* `limit`, `minL`, `maxL`, `debt` — `self._limit`, `self._min`,
  `self._max`, `self._debt` (Python ints).
* `window` — `self._window`; `succ`/`fail` — `self._succ`/`self._fail`.
* `upThreshold`/`downThreshold` — `self._up_threshold`/`self._down_threshold`.
-/
structure AdaptiveLimiter where
  sema : Nat
  held : Nat
  limit : Int
  minL : Int
  maxL : Int
  window : Nat
  upThreshold : ℚ
  downThreshold : ℚ
  succ : Nat
  fail : Nat
  debt : Int
deriving Repr, DecidableEq

/-- `AdaptiveLimiter.__init__(initial, min_limit, max_limit, window,
up_threshold, down_threshold)`: the semaphore starts with `initial`
permits, `self._limit = initial`, counters and debt start at zero. -/
def mkLimiter (initial : Nat) (min_limit max_limit : Int) (window : Nat)
    (up_threshold down_threshold : ℚ) : AdaptiveLimiter :=
  { sema := initial
    held := 0
    limit := initial
    minL := min_limit
    maxL := max_limit
    window := window
    upThreshold := up_threshold
    downThreshold := down_threshold
    succ := 0
    fail := 0
    debt := 0 }

/-- `AdaptiveLimiter.acquire`: `self._sema.acquire()` takes one permit
(the caller blocks until `sema > 0`, so the transition is only enabled
then; see `Step.acquire`).  The ghost `held` counter goes up by one. -/
def AdaptiveLimiter.acquire (s : AdaptiveLimiter) : AdaptiveLimiter :=
  { s with sema := s.sema - 1, held := s.held + 1 }

/-- First two lines of `release`: record the outcome
(`self._succ += 1` / `self._fail += 1`). -/
def AdaptiveLimiter.bump (s : AdaptiveLimiter) (success : Bool) : AdaptiveLimiter :=
  if success then { s with succ := s.succ + 1 } else { s with fail := s.fail + 1 }

/-- `AdaptiveLimiter.release(success)` (lines 168-200), straight-line
transcription.  The caller gives up its permit in every branch (`held`
drops by one).  If `debt > 0` the permit is withheld (debt branch returns
early, skipping the window check and the counter reset).  Otherwise the
permit is returned and, once `window` completions have been observed,
the limit is adjusted: shrink adds debt, growth releases one extra
permit; the counters reset whenever the window check ran. -/
def AdaptiveLimiter.release (s : AdaptiveLimiter) (success : Bool) : AdaptiveLimiter :=
  let s1 := s.bump success
  let total : Nat := s1.succ + s1.fail
  if 0 < s1.debt then
    { s1 with debt := s1.debt - 1, held := s1.held - 1 }
  else
    let s2 := { s1 with sema := s1.sema + 1, held := s1.held - 1 }
    if s1.window ≤ total then
      let failRate : ℚ := mkRat s1.fail total
      let s3 :=
        if s1.downThreshold < failRate ∧ s1.minL < s1.limit then
          { s2 with limit := s2.limit - 1, debt := s2.debt + 1 }
        else if failRate < s1.upThreshold ∧ s1.limit < s1.maxL then
          { s2 with limit := s2.limit + 1, sema := s2.sema + 1 }
        else s2
      { s3 with succ := 0, fail := 0 }
    else s2

/-- One step of a client against the limiter.  `acquire` is enabled only
when a permit is available (the Python semaphore blocks otherwise);
`release` is enabled only when some caller actually holds a permit
(every `release` is preceded by a matching `acquire`). -/
inductive Step : AdaptiveLimiter → AdaptiveLimiter → Prop
  | acquire (s : AdaptiveLimiter) (h : 0 < s.sema) : Step s s.acquire
  | release (s : AdaptiveLimiter) (b : Bool) (h : 0 < s.held) : Step s (s.release b)

/-- States reachable from `s` by any interleaving of `acquire`/`release`. -/
def Reachable (s t : AdaptiveLimiter) : Prop :=
  Relation.ReflTransGen Step s t

/-- Feeding a sequence of completion outcomes to `release`, first
element first (the spec's "feed n releases" scenarios). -/
def releaseMany (s : AdaptiveLimiter) (l : List Bool) : AdaptiveLimiter :=
  l.foldl AdaptiveLimiter.release s

/-- The value `total` computed inside `release` (outcome already
recorded). -/
def totalAfter (s : AdaptiveLimiter) (b : Bool) : Nat :=
  (s.bump b).succ + (s.bump b).fail

/-- The value `fail_rate` computed inside `release` (outcome already
recorded). -/
def rateAfter (s : AdaptiveLimiter) (b : Bool) : ℚ :=
  mkRat ((s.bump b).fail : Int) (totalAfter s b)

/-- Limiter state after spec scenario A: `min=2, max=10, window=10,
downThreshold=0.3` (up-threshold at the source default `0.01`), initial
limit `n`, after feeding the outcome sequence `l` to `release`. -/
def scenarioA (n : Nat) (l : List Bool) : AdaptiveLimiter :=
  releaseMany (mkLimiter n 2 10 10 (mkRat 1 100) (mkRat 3 10)) l

/-- Bound/configuration invariant of a limiter: the configured bounds are
`m`/`M`, the current limit lies between them, and debt is nonnegative. -/
def BoundsInv (m M : Int) (s : AdaptiveLimiter) : Prop :=
  s.minL = m ∧ s.maxL = M ∧ m ≤ s.limit ∧ s.limit ≤ M ∧ 0 ≤ s.debt

/-- Permit accounting invariant: permits available plus permits held
equals the current limit plus the outstanding debt. -/
def ConsInv (s : AdaptiveLimiter) : Prop :=
  (s.sema : Int) + (s.held : Int) = s.limit + s.debt

/-!
### Host bucketing

`main` (lines 696-701) groups tasks by `(task.host, ip)` where `ip` is
the first resolved address of the host, or the sentinel `"unresolved"`
when `resolved.get(task.host, [])` is empty:

    server_buckets = {}
    for task in all_tasks:
        ips = resolved.get(task.host, [])
        ip = ips[0] if ips else "unresolved"
        key = (task.host, ip)
        server_buckets.setdefault(key, []).append(task)

A Python dict is insertion ordered, so it is embedded as an association
list: `setdefault(key, []).append(task)` appends to the entry with that
key, or adds a fresh entry at the end.
-/

/-- The `DownloadTask` dataclass (lines 49-54).  The `action` callable
is opaque to the orchestrator; its payload type is a parameter. -/
structure DownloadTask (α : Type) where
  dest : String
  host : String
  source : String
  action : α
deriving Repr, DecidableEq

/-- `ips = resolved.get(task.host, []); ip = ips[0] if ips else "unresolved"`. -/
def bucketIP (resolved : String → List String) (host : String) : String :=
  match resolved host with
  | [] => "unresolved"
  | ip :: _ => ip

/-- `key = (task.host, ip)`. -/
def bucketKey (resolved : String → List String) (t : DownloadTask α) : String × String :=
  (t.host, bucketIP resolved t.host)

/-- `server_buckets.setdefault(key, []).append(task)` on the
association-list embedding of the dict. -/
def addTask (key : String × String) (t : DownloadTask α) :
    List ((String × String) × List (DownloadTask α)) →
      List ((String × String) × List (DownloadTask α))
  | [] => [(key, [t])]
  | (k, ts) :: rest =>
      if k = key then (k, ts ++ [t]) :: rest else (k, ts) :: addTask key t rest

/-- The `server_buckets` loop of `main` (lines 696-701). -/
def serverBuckets (resolved : String → List String) (tasks : List (DownloadTask α)) :
    List ((String × String) × List (DownloadTask α)) :=
  tasks.foldl (fun acc t => addTask (bucketKey resolved t) t acc) []

/-- Dict lookup on the association-list embedding. -/
def lookupB (key : String × String) :
    List ((String × String) × List (DownloadTask α)) → Option (List (DownloadTask α))
  | [] => none
  | (k, ts) :: rest => if k = key then some ts else lookupB key rest

/-- The tasks whose bucket key is `k` — what the bucket for `k` must
hold after the loop. -/
def keyFilter (r : String → List String) (k : String × String)
    (tasks : List (DownloadTask α)) : List (DownloadTask α) :=
  tasks.filter (fun t => decide (bucketKey r t = k))

/-- Concrete resolution map for witnesses: `cqww.com` resolves to two
addresses, every other host to none. -/
def demoResolve : String → List String :=
  fun h => if h = "cqww.com" then ["104.21.4.4", "172.67.132.8"] else []

/-- Like `demoResolve` but returning only the first address. -/
def demoResolveOne : String → List String :=
  fun h => if h = "cqww.com" then ["104.21.4.4"] else []

/-- Resolution map sending every host to one shared address. -/
def demoResolveShared : String → List String :=
  fun _ => ["203.0.113.7"]

def demoTask1 : DownloadTask Unit :=
  { dest := "CQWW/cw/2024/k3lr.log", host := "cqww.com", source := "CQWW", action := () }

def demoTask2 : DownloadTask Unit :=
  { dest := "CQWW/cw/2024/w3lpl.log", host := "cqww.com", source := "CQWW", action := () }

def demoTask3 : DownloadTask Unit :=
  { dest := "WAE/CW/2024/dl1a.log", host := "dxhf2.darc.de", source := "WAE", action := () }

/-!
### Execution phase (`process_host` / `wrapped_task`, lines 725-742)

`wrapped_task` acquires a permit, runs the task's action, and releases
the permit in a `finally` block.  It has NO `except` clause, so an
exception raised by the action escapes `wrapped_task` into its future.
`process_host` submits every task of its bucket to a thread pool up
front and then iterates `future.result()`; the first re-raised exception
propagates out of that loop (and out of the bucket's thread).  The
executor's context manager shuts down with `wait=True` and does not
cancel queued work, so every submitted task still runs.  The model fixes
one completion order (list order); an action's outcome is an
`Except ε Unit` value, `Except.error` standing for a raised exception.
-/

/-- One `wrapped_task(task)` call: acquire a permit, run the action,
release with `success = True` iff no exception was raised.  The action's
own outcome is returned to the future; an exception is not caught here. -/
def wrappedTask (lim : Option AdaptiveLimiter) (t : DownloadTask (Except ε Unit)) :
    Option AdaptiveLimiter × Except ε Unit :=
  let lim1 := lim.map AdaptiveLimiter.acquire
  let success := match t.action with | .ok _ => true | .error _ => false
  (lim1.map (fun l => l.release success), t.action)

/-- The bucket's pool runs every submitted task (shutdown waits and does
not cancel queued futures); the bucket's limiter is threaded through. -/
def runTasks (lim : Option AdaptiveLimiter) :
    List (DownloadTask (Except ε Unit)) → Option AdaptiveLimiter × List (Except ε Unit)
  | [] => (lim, [])
  | t :: ts =>
      let p := wrappedTask lim t
      let q := runTasks p.1 ts
      (q.1, p.2 :: q.2)

/-- The `for future in as_completed(futures): future.result()` loop:
the first stored exception is re-raised, otherwise the loop returns. -/
def resultLoop : List (Except ε Unit) → Except ε Unit
  | [] => .ok ()
  | .ok _ :: rs => resultLoop rs
  | .error e :: _ => .error e

/-- `process_host`: run all the bucket's tasks, then drain the results.
The second component is what escapes the result loop — an exception
there terminates the bucket's thread. -/
def processHost (lim : Option AdaptiveLimiter)
    (tasks : List (DownloadTask (Except ε Unit))) :
    List (Except ε Unit) × Except ε Unit :=
  let p := runTasks lim tasks
  (p.2, resultLoop p.2)

def demoErrTask : DownloadTask (Except String Unit) :=
  { dest := "CQWW/cw/2024/bad.log", host := "cqww.com", source := "CQWW",
    action := Except.error "HTTP 500" }

def demoOkTask : DownloadTask (Except String Unit) :=
  { dest := "CQWW/cw/2024/good.log", host := "cqww.com", source := "CQWW",
    action := Except.ok () }

/-!
### Discovery phase (`main`, lines 666-678)

    futures = {executor.submit(run_provider, sel): sel for sel in selections}
    for fut in concurrent.futures.as_completed(futures):
        sel, tasks = fut.result()
        ...
        all_tasks.extend(tasks)

`fut.result()` is not wrapped in any try/except: an exception raised by
a provider's discovery function is re-raised in `main` and propagates
out (aborting the run), although the other providers' futures do run to
completion.  The loop is modelled over one completion order, each
provider contributing either its task list or a raised exception.
-/

/-- The discovery result loop with its `all_tasks` accumulator. -/
def discoveryLoop (acc : List (DownloadTask α)) :
    List (Except ε (List (DownloadTask α))) → Except ε (List (DownloadTask α))
  | [] => .ok acc
  | .ok ts :: rs => discoveryLoop (acc ++ ts) rs
  | .error e :: _ => .error e

/-- `true` iff a provider's discovery returned instead of raising. -/
def exceptOk : Except ε β → Bool
  | .ok _ => true
  | .error _ => false

/-- The task list a provider contributed (empty for a raised error). -/
def okList : Except ε (List (DownloadTask α)) → List (DownloadTask α)
  | .ok ts => ts
  | .error _ => []

def demoTask4 : DownloadTask Unit :=
  { dest := "ARRL/arrl_dx_cw/2024/k1ar.log", host := "contests.arrl.org",
    source := "ARRL", action := () }

def demoTask5 : DownloadTask Unit :=
  { dest := "EUHFC/2024/s50a.log", host := "lea.hamradio.si",
    source := "EUHFC", action := () }

/-- Five tasks, as contributed by the healthy provider of scenario C. -/
def demoFiveTasks : List (DownloadTask Unit) :=
  [demoTask1, demoTask2, demoTask3, demoTask4, demoTask5]

/-!
### Exit-code contract (`main`, lines 685-687 and 754-755)

    if not all_tasks:
        print("No log links found.")
        return 1
    ...
    print("Done.")
    return 0

`main` returns 1 exactly when discovery produced zero tasks, and returns
0 unconditionally after the execution phase.  No per-task success signal
is aggregated anywhere; the `outcomes` parameter below records what each
task's action did (newly wrote its destination, skipped an existing one,
or failed) purely so the claim about them can be stated.
-/

/-- What one task's action did to its destination artifact. -/
inductive TaskOutcome where
  | wrote
  | skipped
  | failed
deriving Repr, DecidableEq

/-- The exit code computed by `main`: 1 iff no tasks were discovered;
the per-task outcomes do not enter the computation at all. -/
def mainExitCode (allTasks : List (DownloadTask α)) (outcomes : List TaskOutcome) : Nat :=
  if allTasks.isEmpty then 1 else 0

/-- The failure rate in `release` is written `mkRat fail total`; this is
exactly the rational number `fail / total` computed by the Python line
`fail_rate = self._fail / total` (`mkRat` is used only because it
evaluates inside the kernel). -/
theorem mkRat_eq_div_cast (n d : Nat) : mkRat (n : Int) d = (n : ℚ) / (d : ℚ) := by
  rw [Rat.mkRat_eq_div]
  push_cast
  ring

@[simp] theorem bump_sema (s : AdaptiveLimiter) (b : Bool) : (s.bump b).sema = s.sema := by
  cases b <;> rfl

@[simp] theorem bump_held (s : AdaptiveLimiter) (b : Bool) : (s.bump b).held = s.held := by
  cases b <;> rfl

@[simp] theorem bump_limit (s : AdaptiveLimiter) (b : Bool) : (s.bump b).limit = s.limit := by
  cases b <;> rfl

@[simp] theorem bump_minL (s : AdaptiveLimiter) (b : Bool) : (s.bump b).minL = s.minL := by
  cases b <;> rfl

@[simp] theorem bump_maxL (s : AdaptiveLimiter) (b : Bool) : (s.bump b).maxL = s.maxL := by
  cases b <;> rfl

@[simp] theorem bump_window (s : AdaptiveLimiter) (b : Bool) : (s.bump b).window = s.window := by
  cases b <;> rfl

@[simp] theorem bump_up (s : AdaptiveLimiter) (b : Bool) :
    (s.bump b).upThreshold = s.upThreshold := by
  cases b <;> rfl

@[simp] theorem bump_down (s : AdaptiveLimiter) (b : Bool) :
    (s.bump b).downThreshold = s.downThreshold := by
  cases b <;> rfl

@[simp] theorem bump_debt (s : AdaptiveLimiter) (b : Bool) : (s.bump b).debt = s.debt := by
  cases b <;> rfl

@[simp] theorem bump_total (s : AdaptiveLimiter) (b : Bool) :
    (s.bump b).succ + (s.bump b).fail = s.succ + s.fail + 1 := by
  cases b <;> simp [AdaptiveLimiter.bump] <;> omega

@[simp] theorem totalAfter_eq (s : AdaptiveLimiter) (b : Bool) :
    totalAfter s b = s.succ + s.fail + 1 := bump_total s b

/-- `release` written as one nested conditional over the pre-state: the
three-way case split the Python method performs. -/
theorem release_def (s : AdaptiveLimiter) (b : Bool) :
    s.release b =
      if 0 < s.debt then
        { s.bump b with debt := s.debt - 1, held := s.held - 1 }
      else if s.window ≤ totalAfter s b then
        if s.downThreshold < rateAfter s b ∧ s.minL < s.limit then
          { s with sema := s.sema + 1, held := s.held - 1,
                   limit := s.limit - 1, debt := s.debt + 1,
                   succ := 0, fail := 0 }
        else if rateAfter s b < s.upThreshold ∧ s.limit < s.maxL then
          { s with sema := s.sema + 2, held := s.held - 1,
                   limit := s.limit + 1, succ := 0, fail := 0 }
        else
          { s with sema := s.sema + 1, held := s.held - 1,
                   succ := 0, fail := 0 }
      else
        { s.bump b with sema := s.sema + 1, held := s.held - 1 } := by
  cases b <;>
    simp only [AdaptiveLimiter.release, AdaptiveLimiter.bump, totalAfter, rateAfter,
      Bool.false_eq_true, if_true, if_false, ite_true, ite_false] <;>
    split_ifs <;> rfl

@[simp] theorem bump_fail_true (s : AdaptiveLimiter) : (s.bump true).fail = s.fail := rfl

@[simp] theorem bump_fail_false (s : AdaptiveLimiter) : (s.bump false).fail = s.fail + 1 := rfl

@[simp] theorem bump_succ_true (s : AdaptiveLimiter) : (s.bump true).succ = s.succ + 1 := rfl

@[simp] theorem bump_succ_false (s : AdaptiveLimiter) : (s.bump false).succ = s.succ := rfl

/-- `release`, debt branch (`self._debt > 0`): the permit is withheld,
the freshly recorded counters are kept (no reset), nothing else moves. -/
theorem release_eq_payDebt (s : AdaptiveLimiter) (b : Bool) (h : 0 < s.debt) :
    s.release b = { s.bump b with debt := s.debt - 1, held := s.held - 1 } := by
  rw [release_def, if_pos h]

/-- `release`, window not yet full: the permit is returned and no
adjustment happens. -/
theorem release_eq_step (s : AdaptiveLimiter) (b : Bool) (hd : ¬ 0 < s.debt)
    (hw : s.succ + s.fail + 1 < s.window) :
    s.release b = { s.bump b with sema := s.sema + 1, held := s.held - 1 } := by
  rw [release_def, if_neg hd, if_neg (by rw [totalAfter_eq]; omega)]

/-- `release`, window full and shrink branch taken: the permit of this
call is still returned, the limit drops by one, one unit of debt is
recorded, the counters reset. -/
theorem release_eq_shrink (s : AdaptiveLimiter) (b : Bool) (hd : ¬ 0 < s.debt)
    (hw : s.window ≤ s.succ + s.fail + 1)
    (hr : s.downThreshold < rateAfter s b) (hl : s.minL < s.limit) :
    s.release b = { s with sema := s.sema + 1, held := s.held - 1,
                           limit := s.limit - 1, debt := s.debt + 1,
                           succ := 0, fail := 0 } := by
  rw [release_def, if_neg hd, if_pos (by rw [totalAfter_eq]; omega), if_pos ⟨hr, hl⟩]

/-- `release`, window full and growth branch taken: the limit grows by
one and a second permit is released in the same call. -/
theorem release_eq_grow (s : AdaptiveLimiter) (b : Bool) (hd : ¬ 0 < s.debt)
    (hw : s.window ≤ s.succ + s.fail + 1)
    (hns : ¬ (s.downThreshold < rateAfter s b ∧ s.minL < s.limit))
    (hg : rateAfter s b < s.upThreshold ∧ s.limit < s.maxL) :
    s.release b = { s with sema := s.sema + 2, held := s.held - 1,
                           limit := s.limit + 1, succ := 0, fail := 0 } := by
  rw [release_def, if_neg hd, if_pos (by rw [totalAfter_eq]; omega), if_neg hns, if_pos hg]

theorem count_true_add_count_false (l : List Bool) :
    l.count true + l.count false = l.length := by
  induction l with
  | nil => rfl
  | cons b l ih => cases b <;> simp [List.count_cons] <;> omega

theorem releaseMany_append (s : AdaptiveLimiter) (a b : List Bool) :
    releaseMany s (a ++ b) = releaseMany (releaseMany s a) b := by
  simp [releaseMany, List.foldl_append]

/-- Fewer releases than the window (and no debt): `release` only records
outcomes and returns permits; no adjustment can fire. -/
theorem releaseMany_no_window (s : AdaptiveLimiter) (l : List Bool)
    (hd : ¬ 0 < s.debt) (hw : s.succ + s.fail + l.length < s.window) :
    releaseMany s l =
      { s with succ := s.succ + l.count true, fail := s.fail + l.count false,
               sema := s.sema + l.length, held := s.held - l.length } := by
  induction l generalizing s with
  | nil =>
      cases s
      simp [releaseMany]
  | cons b l ih =>
      have hlen2 : s.succ + s.fail + (l.length + 1) < s.window := by simpa using hw
      have hstep : s.release b = { s.bump b with sema := s.sema + 1, held := s.held - 1 } :=
        release_eq_step s b hd (by omega)
      have hrec := ih { s.bump b with sema := s.sema + 1, held := s.held - 1 }
        (by simpa using hd)
        (by cases b <;> simp [AdaptiveLimiter.bump] <;> omega)
      have hfold : releaseMany s (b :: l) = releaseMany (s.release b) l := rfl
      rw [hfold, hstep, hrec]
      cases b <;>
        simp [AdaptiveLimiter.bump, List.count_cons, AdaptiveLimiter.mk.injEq] <;>
        omega

/-- Exactly `window` releases starting from fresh counters and no debt,
with a failure share strictly above the down-threshold and the limit
strictly above the minimum: every release up to the last returns its
permit, and the last one triggers the shrink adjustment. -/
theorem releaseMany_window_shrink (s : AdaptiveLimiter) (l : List Bool)
    (hd : ¬ 0 < s.debt) (hsucc : s.succ = 0) (hfail : s.fail = 0)
    (hlen : l.length = s.window) (hwpos : 0 < s.window)
    (hr : s.downThreshold < mkRat (l.count false) s.window)
    (hl : s.minL < s.limit) :
    releaseMany s l =
      { s with sema := s.sema + s.window, held := s.held - s.window,
               limit := s.limit - 1, debt := s.debt + 1,
               succ := 0, fail := 0 } := by
  obtain ⟨l', b, rfl⟩ : ∃ (l' : List Bool) (b : Bool), l = l'.concat b := by
    rcases l.eq_nil_or_concat with h | h
    · subst h
      simp at hlen
      omega
    · exact h
  have hl9 : l'.length + 1 = s.window := by simpa using hlen
  have hpre := releaseMany_no_window s l' hd (by omega)
  have hcnt : l'.count true + l'.count false = l'.length :=
    count_true_add_count_false l'
  have hsplit : releaseMany s (l'.concat b) = (releaseMany s l').release b := by
    simp [releaseMany, List.foldl_concat]
  rw [hsplit, hpre]
  have hcc : (l'.concat b).count false = l'.count false + if b then 0 else 1 := by
    cases b <;> simp [List.concat, List.count_append]
  have hshr := release_eq_shrink { s with succ := s.succ + l'.count true, fail := s.fail + l'.count false, sema := s.sema + l'.length, held := s.held - l'.length } b
    (by simpa using hd)
    (by simp; omega)
    (by
      rw [rateAfter]
      have hfe : (({ s with succ := s.succ + l'.count true, fail := s.fail + l'.count false, sema := s.sema + l'.length, held := s.held - l'.length } : AdaptiveLimiter).bump b).fail = (l'.concat b).count false := by
        cases b <;> simp [hfail, hcc]
      rw [hfe]
      have hde : totalAfter { s with succ := s.succ + l'.count true, fail := s.fail + l'.count false, sema := s.sema + l'.length, held := s.held - l'.length } b = s.window := by
        rw [totalAfter_eq]
        simp
        omega
      rw [hde]
      simpa using hr)
    (by simpa using hl)
  rw [hshr]
  simp [AdaptiveLimiter.mk.injEq]
  omega

/-- Exactly `window` all-successful releases starting from fresh counters
and no debt, with a nonnegative down-threshold, a positive up-threshold
and the limit strictly below the maximum: every release up to the last
returns its permit, and the last one triggers the growth adjustment,
releasing a second permit in the same call. -/
theorem releaseMany_window_grow (s : AdaptiveLimiter) (l : List Bool)
    (hd : ¬ 0 < s.debt) (hsucc : s.succ = 0) (hfail : s.fail = 0)
    (hlen : l.length = s.window) (hwpos : 0 < s.window)
    (hall : l.count false = 0)
    (hdown : 0 ≤ s.downThreshold) (hup : 0 < s.upThreshold)
    (hl : s.limit < s.maxL) :
    releaseMany s l =
      { s with sema := s.sema + s.window + 1, held := s.held - s.window,
               limit := s.limit + 1, succ := 0, fail := 0 } := by
  obtain ⟨l', b, rfl⟩ : ∃ (l' : List Bool) (b : Bool), l = l'.concat b := by
    rcases l.eq_nil_or_concat with h | h
    · subst h
      simp at hlen
      omega
    · exact h
  have hl9 : l'.length + 1 = s.window := by simpa using hlen
  have hpre := releaseMany_no_window s l' hd (by omega)
  have hcnt : l'.count true + l'.count false = l'.length :=
    count_true_add_count_false l'
  have hsplit : releaseMany s (l'.concat b) = (releaseMany s l').release b := by
    simp [releaseMany, List.foldl_concat]
  have hcc : (l'.concat b).count false = l'.count false + if b then 0 else 1 := by
    cases b <;> simp [List.concat, List.count_append]
  have hcf : l'.count false = 0 := by
    rcases b with - | -
    · simp [hcc] at hall
    · simpa [hcc] using hall
  rw [hsplit, hpre]
  have hrate : rateAfter { s with succ := s.succ + l'.count true, fail := s.fail + l'.count false, sema := s.sema + l'.length, held := s.held - l'.length } b = 0 := by
    rw [rateAfter]
    have hfe : (({ s with succ := s.succ + l'.count true, fail := s.fail + l'.count false, sema := s.sema + l'.length, held := s.held - l'.length } : AdaptiveLimiter).bump b).fail = 0 := by
      rcases b with - | -
      · simp [hcc] at hall
      · simp [hfail, hcf]
    rw [hfe]
    simp
  have hgrw := release_eq_grow { s with succ := s.succ + l'.count true, fail := s.fail + l'.count false, sema := s.sema + l'.length, held := s.held - l'.length } b
    (by simpa using hd)
    (by simp; omega)
    (by
      rw [hrate]
      rintro ⟨hcontra, -⟩
      simp at hcontra
      exact absurd hcontra (not_lt.2 hdown))
    (by
      rw [hrate]
      exact ⟨by simpa using hup, by simpa using hl⟩)
  rw [hgrw]
  simp [AdaptiveLimiter.mk.injEq]
  omega

theorem boundsInv_step {m M : Int} {s t : AdaptiveLimiter}
    (hs : BoundsInv m M s) (hst : Step s t) : BoundsInv m M t := by
  obtain ⟨h1, h2, h3, h4, h5⟩ := hs
  cases hst with
  | acquire ha =>
      exact ⟨h1, h2, h3, h4, h5⟩
  | release b hh =>
      rw [release_def]
      split_ifs with c1 c2 c3 c4
      · simp only [BoundsInv, bump_minL, bump_maxL, bump_limit, bump_debt]
        omega
      · obtain ⟨-, c3⟩ := c3
        simp only [BoundsInv]
        omega
      · obtain ⟨-, c4⟩ := c4
        simp only [BoundsInv]
        omega
      · simp only [BoundsInv]
        omega
      · simp only [BoundsInv, bump_minL, bump_maxL, bump_limit, bump_debt]
        omega

theorem consInv_step {s t : AdaptiveLimiter}
    (hs : ConsInv s) (hst : Step s t) : ConsInv t := by
  unfold ConsInv at hs
  cases hst with
  | acquire ha =>
      simp only [ConsInv, AdaptiveLimiter.acquire]
      omega
  | release b hh =>
      rw [release_def]
      split_ifs with c1 c2 c3 c4 <;>
        simp only [ConsInv, bump_sema, bump_held, bump_limit, bump_debt] <;>
        omega

theorem boundsInv_reachable {m M : Int} {s t : AdaptiveLimiter}
    (hs : BoundsInv m M s) (h : Reachable s t) : BoundsInv m M t := by
  induction h with
  | refl => exact hs
  | tail _ hbc ih => exact boundsInv_step ih hbc

theorem consInv_reachable {s t : AdaptiveLimiter}
    (hs : ConsInv s) (h : Reachable s t) : ConsInv t := by
  induction h with
  | refl => exact hs
  | tail _ hbc ih => exact consInv_step ih hbc

/-- C1: for every `AdaptiveLimiter` constructed with
`min_limit ≤ initial ≤ max_limit` and every sequence of `acquire()` and
`release(success)` calls in which each release is preceded by a matching
acquire (this is what the `Step` guards enforce), after every operation
the limit satisfies `min_limit ≤ limit ≤ max_limit` and the debt is
nonnegative, regardless of the outcomes fed in or how many adjustment
windows elapse. -/
theorem spec_C1_limit_bounds (initial : Nat) (m M : Int) (w : Nat) (u d : ℚ)
    (t : AdaptiveLimiter)
    (hmin : m ≤ (initial : Int)) (hmax : (initial : Int) ≤ M)
    (h : Reachable (mkLimiter initial m M w u d) t) :
    m ≤ t.limit ∧ t.limit ≤ M ∧ 0 ≤ t.debt := by
  have h0 : BoundsInv m M (mkLimiter initial m M w u d) :=
    ⟨rfl, rfl, hmin, hmax, le_refl 0⟩
  obtain ⟨-, -, h3, h4, h5⟩ := boundsInv_reachable h0 h
  exact ⟨h3, h4, h5⟩

theorem spec_C1_limit_bounds_witness :
    2 ≤ ((mkLimiter 4 2 10 50 (mkRat 1 100) (mkRat 1 20)).acquire).limit ∧
    ((mkLimiter 4 2 10 50 (mkRat 1 100) (mkRat 1 20)).acquire).limit ≤ 10 ∧
    0 ≤ ((mkLimiter 4 2 10 50 (mkRat 1 100) (mkRat 1 20)).acquire).debt :=
  spec_C1_limit_bounds 4 2 10 50 (mkRat 1 100) (mkRat 1 20) _
    (by decide) (by decide)
    (Relation.ReflTransGen.single (Step.acquire _ (by decide)))

/-- C2: for every `AdaptiveLimiter` and every sequence of interleaved
`acquire()`/`release(success)` calls in which each release is matched by
a prior acquire, the permit accounting is conserved across adjustments:
permits available plus permits held always equals the current limit plus
the outstanding debt, so once the debt is paid off the held-plus-available
capacity equals the current limit. -/
theorem spec_C2_conservation (initial : Nat) (m M : Int) (w : Nat) (u d : ℚ)
    (t : AdaptiveLimiter)
    (h : Reachable (mkLimiter initial m M w u d) t) :
    (t.sema : Int) + (t.held : Int) = t.limit + t.debt ∧
    (t.debt = 0 → (t.sema : Int) + (t.held : Int) = t.limit) := by
  have h0 : ConsInv (mkLimiter initial m M w u d) := by
    simp [ConsInv, mkLimiter]
  have ht := consInv_reachable h0 h
  unfold ConsInv at ht
  exact ⟨ht, fun hd => by omega⟩

/-- C3: limiter with `min_limit=2, max_limit=10, window=10,
down_threshold=0.3`, initial limit strictly above the minimum, fresh
counters and no debt: after exactly 10 releases of which 4 report
failure (rate `4/10 > 3/10`), the limit has dropped by exactly one and
the debt equals one; exactly one subsequent release withholds its permit
(the semaphore does not move and the debt clears), and the release after
that returns its permit again.  No permit is ever clawed back from an
in-flight caller: the scenario even ends with all ten permits returned. -/
theorem spec_C3_scenarioA (n : Nat) (l : List Bool)
    (hlen : l.length = 10) (hfl : l.count false = 4)
    (hmin : 2 < (n : Int)) :
    (scenarioA n l).limit = (n : Int) - 1 ∧
    (scenarioA n l).debt = 1 ∧
    (scenarioA n l).sema = n + 10 ∧
    (∀ b, ((scenarioA n l).release b).sema = (scenarioA n l).sema ∧
          ((scenarioA n l).release b).debt = 0) ∧
    (∀ b b2, (((scenarioA n l).release b).release b2).sema = (scenarioA n l).sema + 1) := by
  have hA : scenarioA n l = { mkLimiter n 2 10 10 (mkRat 1 100) (mkRat 3 10) with sema := n + 10, held := 0 - 10, limit := (n : Int) - 1, debt := 0 + 1, succ := 0, fail := 0 } := by
    unfold scenarioA
    rw [releaseMany_window_shrink (mkLimiter n 2 10 10 (mkRat 1 100) (mkRat 3 10)) l
      (by simp [mkLimiter]) rfl rfl (by simpa [mkLimiter] using hlen)
      (by simp [mkLimiter])
      (by simp only [mkLimiter]
          rw [hfl]
          decide)
      (by simpa [mkLimiter] using hmin)]
    rfl
  refine ⟨by rw [hA], by rw [hA]; rfl, by rw [hA], ?_, ?_⟩
  · intro b
    rw [hA, release_eq_payDebt _ b (by simp)]
    exact ⟨by simp, by rfl⟩
  · intro b b2
    rw [hA, release_eq_payDebt _ b (by simp)]
    rw [release_eq_step _ b2 (by simp) (by cases b <;> simp [AdaptiveLimiter.bump, mkLimiter])]
    simp

theorem spec_C3_scenarioA_witness :
    (List.replicate 4 false ++ List.replicate 6 true).length = 10 ∧
    (List.replicate 4 false ++ List.replicate 6 true).count false = 4 ∧
    (scenarioA 5 (List.replicate 4 false ++ List.replicate 6 true)).limit = (5 : Int) - 1 ∧
    (scenarioA 5 (List.replicate 4 false ++ List.replicate 6 true)).debt = 1 ∧
    (scenarioA 5 (List.replicate 4 false ++ List.replicate 6 true)).sema = 5 + 10 ∧
    ((scenarioA 5 (List.replicate 4 false ++ List.replicate 6 true)).release false).sema =
      (scenarioA 5 (List.replicate 4 false ++ List.replicate 6 true)).sema ∧
    ((scenarioA 5 (List.replicate 4 false ++ List.replicate 6 true)).release false).debt = 0 ∧
    (((scenarioA 5 (List.replicate 4 false ++ List.replicate 6 true)).release false).release true).sema =
      (scenarioA 5 (List.replicate 4 false ++ List.replicate 6 true)).sema + 1 := by
  have h := spec_C3_scenarioA 5 (List.replicate 4 false ++ List.replicate 6 true)
    (by decide) (by decide) (by decide)
  exact ⟨by decide, by decide, h.1, h.2.1, h.2.2.1,
    (h.2.2.2.1 false).1, (h.2.2.2.1 false).2, h.2.2.2.2 false true⟩

/-- C4 as stated is false: it asks only that the window be at most 10,
but any window up to 5 fits two or more adjustment cycles into 10
releases.  With `window = 1` (which is `≤ 10`), `up_threshold = 0.01`,
limit `1` strictly below `max_limit = 10`, fresh counters and no debt,
10 all-successful releases raise the limit to 10 — an increase of 9,
not of exactly 1. -/
theorem spec_C4_growth_counterexample :
    (mkLimiter 1 1 10 1 (mkRat 1 100) (mkRat 1 20)).window ≤ 10 ∧
    (mkLimiter 1 1 10 1 (mkRat 1 100) (mkRat 1 20)).limit <
      (mkLimiter 1 1 10 1 (mkRat 1 100) (mkRat 1 20)).maxL ∧
    (releaseMany (mkLimiter 1 1 10 1 (mkRat 1 100) (mkRat 1 20))
      (List.replicate 10 true)).limit = 10 ∧
    ¬ ((releaseMany (mkLimiter 1 1 10 1 (mkRat 1 100) (mkRat 1 20))
      (List.replicate 10 true)).limit =
        (mkLimiter 1 1 10 1 (mkRat 1 100) (mkRat 1 20)).limit + 1) := by
  decide

/-- C4 (amended): for a limiter with `up_threshold = 0.01`, a window
between 6 and 10 (so that only one adjustment cycle fits into 10
releases; any nonnegative down-threshold, any minimum), current limit
strictly below the maximum, fresh counters and no debt: after 10
all-successful releases the limit has grown by exactly one and eleven
permits have been returned for ten releases — the adjusting `window`-th
call released two permits at once (semaphore `n + window + 1` right
after it, against `n + window - 1` one call earlier). -/
theorem spec_C4_growth_amended (n : Nat) (mn M : Int) (w : Nat) (d : ℚ)
    (hw6 : 6 ≤ w) (hw10 : w ≤ 10) (hlim : (n : Int) < M) (hd : 0 ≤ d) :
    (releaseMany (mkLimiter n mn M w (mkRat 1 100) d) (List.replicate 10 true)).limit
      = (n : Int) + 1 ∧
    (releaseMany (mkLimiter n mn M w (mkRat 1 100) d) (List.replicate 10 true)).sema
      = n + 11 ∧
    (releaseMany (mkLimiter n mn M w (mkRat 1 100) d) (List.replicate w true)).sema
      = n + w + 1 ∧
    (releaseMany (mkLimiter n mn M w (mkRat 1 100) d) (List.replicate (w - 1) true)).sema
      = n + (w - 1) := by
  have hG1 := releaseMany_window_grow (mkLimiter n mn M w (mkRat 1 100) d)
    (List.replicate w true)
    (by simp [mkLimiter]) rfl rfl (by simp [mkLimiter]) (by simp [mkLimiter]; omega)
    (by simp [List.count_replicate]) (by simpa [mkLimiter] using hd) (by simp only [mkLimiter]; decide)
    (by simpa [mkLimiter] using hlim)
  have hpre := releaseMany_no_window (mkLimiter n mn M w (mkRat 1 100) d)
    (List.replicate (w - 1) true)
    (by simp [mkLimiter]) (by simp [mkLimiter]; omega)
  have hsplit10 : List.replicate 10 true = List.replicate w true ++ List.replicate (10 - w) true := by
    rw [← List.replicate_add]
    congr 1
    omega
  have happ : releaseMany (mkLimiter n mn M w (mkRat 1 100) d) (List.replicate 10 true)
      = releaseMany (releaseMany (mkLimiter n mn M w (mkRat 1 100) d) (List.replicate w true))
          (List.replicate (10 - w) true) := by
    rw [hsplit10, releaseMany_append]
  have htail := releaseMany_no_window
    { mkLimiter n mn M w (mkRat 1 100) d with sema := (mkLimiter n mn M w (mkRat 1 100) d).sema + (mkLimiter n mn M w (mkRat 1 100) d).window + 1, held := (mkLimiter n mn M w (mkRat 1 100) d).held - (mkLimiter n mn M w (mkRat 1 100) d).window, limit := (mkLimiter n mn M w (mkRat 1 100) d).limit + 1, succ := 0, fail := 0 }
    (List.replicate (10 - w) true)
    (by simp [mkLimiter]) (by simp [mkLimiter]; omega)
  refine ⟨?_, ?_, ?_, ?_⟩
  · rw [happ, hG1, htail]
    simp [mkLimiter]
  · rw [happ, hG1, htail]
    simp [mkLimiter]
    omega
  · rw [hG1]
    simp [mkLimiter]
  · rw [hpre]
    simp [mkLimiter]

theorem spec_C4_growth_amended_witness :
    (6 ≤ 10) ∧ ((1 : Int) < 10) ∧ (0 ≤ mkRat 1 20) ∧
    (releaseMany (mkLimiter 1 1 10 10 (mkRat 1 100) (mkRat 1 20))
      (List.replicate 10 true)).limit = (1 : Int) + 1 ∧
    (releaseMany (mkLimiter 1 1 10 10 (mkRat 1 100) (mkRat 1 20))
      (List.replicate 10 true)).sema = 1 + 11 ∧
    (releaseMany (mkLimiter 1 1 10 10 (mkRat 1 100) (mkRat 1 20))
      (List.replicate 10 true)).sema = 1 + 10 + 1 ∧
    (releaseMany (mkLimiter 1 1 10 10 (mkRat 1 100) (mkRat 1 20))
      (List.replicate 9 true)).sema = 1 + 9 := by
  have h := spec_C4_growth_amended 1 1 10 10 (mkRat 1 20)
    (by decide) (by decide) (by decide) (by decide)
  exact ⟨by decide, by decide, by decide, h.1, h.2.1, h.2.2.1, h.2.2.2⟩

theorem spec_C2_conservation_witness :
    ((((mkLimiter 4 2 10 50 (mkRat 1 100) (mkRat 1 20)).acquire).sema : Int) +
      (((mkLimiter 4 2 10 50 (mkRat 1 100) (mkRat 1 20)).acquire).held : Int) =
      ((mkLimiter 4 2 10 50 (mkRat 1 100) (mkRat 1 20)).acquire).limit +
      ((mkLimiter 4 2 10 50 (mkRat 1 100) (mkRat 1 20)).acquire).debt) ∧
    (((mkLimiter 4 2 10 50 (mkRat 1 100) (mkRat 1 20)).acquire).debt = 0 →
      ((((mkLimiter 4 2 10 50 (mkRat 1 100) (mkRat 1 20)).acquire).sema : Int) +
        (((mkLimiter 4 2 10 50 (mkRat 1 100) (mkRat 1 20)).acquire).held : Int) =
        ((mkLimiter 4 2 10 50 (mkRat 1 100) (mkRat 1 20)).acquire).limit)) :=
  spec_C2_conservation 4 2 10 50 (mkRat 1 100) (mkRat 1 20) _
    (Relation.ReflTransGen.single (Step.acquire _ (by decide)))

theorem addTask_sizes (key : String × String) (t : DownloadTask α)
    (acc : List ((String × String) × List (DownloadTask α))) :
    ((addTask key t acc).map (fun p => p.2.length)).sum =
      (acc.map (fun p => p.2.length)).sum + 1 := by
  induction acc with
  | nil => simp [addTask]
  | cons p rest ih =>
      obtain ⟨k, ts⟩ := p
      by_cases hk : k = key <;> simp [addTask, hk, ih] <;> omega

theorem keys_addTask (key : String × String) (t : DownloadTask α)
    (acc : List ((String × String) × List (DownloadTask α))) :
    (addTask key t acc).map Prod.fst =
      if key ∈ acc.map Prod.fst then acc.map Prod.fst
      else acc.map Prod.fst ++ [key] := by
  induction acc with
  | nil => simp [addTask]
  | cons p rest ih =>
      obtain ⟨k, ts⟩ := p
      by_cases hk : k = key
      · simp [addTask, hk]
      · have hk2 : key ≠ k := fun h => hk h.symm
        by_cases hmem : key ∈ rest.map Prod.fst <;>
          simp [addTask, hk, ih, hk2, hmem]

theorem nodup_keys_addTask (key : String × String) (t : DownloadTask α)
    {acc : List ((String × String) × List (DownloadTask α))}
    (h : (acc.map Prod.fst).Nodup) : ((addTask key t acc).map Prod.fst).Nodup := by
  rw [keys_addTask]
  by_cases hmem : key ∈ acc.map Prod.fst
  · simpa [hmem] using h
  · simpa [hmem, List.nodup_append] using h

theorem lookupB_addTask_self (key : String × String) (t : DownloadTask α)
    (acc : List ((String × String) × List (DownloadTask α))) :
    lookupB key (addTask key t acc) = some (((lookupB key acc).getD []) ++ [t]) := by
  induction acc with
  | nil => simp [addTask, lookupB]
  | cons p rest ih =>
      obtain ⟨k, ts⟩ := p
      by_cases hk : k = key <;> simp [addTask, lookupB, hk, ih]

theorem lookupB_addTask_ne {k2 key : String × String} (hne : k2 ≠ key)
    (t : DownloadTask α)
    (acc : List ((String × String) × List (DownloadTask α))) :
    lookupB k2 (addTask key t acc) = lookupB k2 acc := by
  induction acc with
  | nil => simp [addTask, lookupB, Ne.symm hne]
  | cons p rest ih =>
      obtain ⟨k, ts⟩ := p
      by_cases hk : k = key
      · subst hk
        simp [addTask, lookupB, Ne.symm hne]
      · simp [addTask, lookupB, hk, ih]

theorem lookupB_mem {key : String × String} {l : List (DownloadTask α)}
    {acc : List ((String × String) × List (DownloadTask α))}
    (h : lookupB key acc = some l) : (key, l) ∈ acc := by
  induction acc with
  | nil => simp [lookupB] at h
  | cons p rest ih =>
      obtain ⟨k, ts⟩ := p
      by_cases hk : k = key
      · subst hk
        simp [lookupB] at h
        simp [h]
      · simp [lookupB, hk] at h
        simp [ih h]

theorem mem_lookupB {key : String × String} {l : List (DownloadTask α)}
    {acc : List ((String × String) × List (DownloadTask α))}
    (hnd : (acc.map Prod.fst).Nodup) (h : (key, l) ∈ acc) :
    lookupB key acc = some l := by
  induction acc with
  | nil => simp at h
  | cons p rest ih =>
      obtain ⟨k, ts⟩ := p
      simp only [List.mem_cons] at h
      rcases h with h | h
      · rw [Prod.mk.injEq] at h
        obtain ⟨rfl, rfl⟩ := h
        simp [lookupB]
      · have hk : k ≠ key := by
          rintro rfl
          have hmem : k ∈ rest.map Prod.fst := List.mem_map_of_mem Prod.fst h
          rw [List.map_cons, List.nodup_cons] at hnd
          exact hnd.1 hmem
        rw [List.map_cons, List.nodup_cons] at hnd
        simp [lookupB, hk]
        exact ih hnd.2 h

theorem serverBuckets_concat (r : String → List String)
    (tasks : List (DownloadTask α)) (t : DownloadTask α) :
    serverBuckets r (tasks ++ [t]) = addTask (bucketKey r t) t (serverBuckets r tasks) := by
  simp [serverBuckets, List.foldl_append]

theorem nodup_keys_serverBuckets (r : String → List String)
    (tasks : List (DownloadTask α)) :
    ((serverBuckets r tasks).map Prod.fst).Nodup := by
  induction tasks using List.reverseRecOn with
  | nil => simp [serverBuckets]
  | append_singleton tasks t ih =>
      rw [serverBuckets_concat]
      exact nodup_keys_addTask _ _ ih

theorem serverBuckets_sizes (r : String → List String)
    (tasks : List (DownloadTask α)) :
    ((serverBuckets r tasks).map (fun p => p.2.length)).sum = tasks.length := by
  suffices h : ∀ (ts : List (DownloadTask α))
      (acc : List ((String × String) × List (DownloadTask α))),
      ((ts.foldl (fun acc t => addTask (bucketKey r t) t acc) acc).map
        (fun p => p.2.length)).sum = (acc.map (fun p => p.2.length)).sum + ts.length by
    simpa [serverBuckets] using h tasks []
  intro ts
  induction ts with
  | nil => intro acc; simp
  | cons t ts ih =>
      intro acc
      simp only [List.foldl_cons, List.length_cons]
      rw [ih, addTask_sizes]
      omega

theorem lookupB_serverBuckets (r : String → List String)
    (tasks : List (DownloadTask α)) (k : String × String) :
    lookupB k (serverBuckets r tasks) =
      if (keyFilter r k tasks).isEmpty then none else some (keyFilter r k tasks) := by
  induction tasks using List.reverseRecOn with
  | nil => simp [serverBuckets, lookupB, keyFilter]
  | append_singleton tasks t ih =>
      rw [serverBuckets_concat]
      by_cases hk : k = bucketKey r t
      · subst hk
        rw [lookupB_addTask_self, ih]
        have hfl : keyFilter r (bucketKey r t) (tasks ++ [t])
            = keyFilter r (bucketKey r t) tasks ++ [t] := by
          simp [keyFilter, List.filter_append]
        by_cases hfe : keyFilter r (bucketKey r t) tasks = []
        · simp [hfe, hfl]
        · have hfe2 : (keyFilter r (bucketKey r t) tasks).isEmpty = false :=
            List.isEmpty_eq_false.2 hfe
          have hfe3 : (keyFilter r (bucketKey r t) (tasks ++ [t])).isEmpty = false := by
            rw [hfl]
            simp [List.isEmpty_eq_false]
          simp [hfe2, hfe3, hfl]
      · rw [lookupB_addTask_ne hk, ih]
        have hfl : keyFilter r k (tasks ++ [t]) = keyFilter r k tasks := by
          simp [keyFilter, List.filter_append, Ne.symm hk]
        rw [hfl]

theorem mem_bucket_self {r : String → List String} {tasks : List (DownloadTask α)}
    {t : DownloadTask α} (ht : t ∈ tasks) :
    ∃ l, (bucketKey r t, l) ∈ serverBuckets r tasks ∧ t ∈ l := by
  have htf : t ∈ keyFilter r (bucketKey r t) tasks :=
    List.mem_filter.2 ⟨ht, by simp⟩
  have hne : (keyFilter r (bucketKey r t) tasks).isEmpty = false := by
    rw [List.isEmpty_eq_false]
    exact List.ne_nil_of_mem htf
  have hlk := lookupB_serverBuckets r tasks (bucketKey r t)
  rw [hne] at hlk
  simp only [Bool.false_eq_true, if_false] at hlk
  exact ⟨_, lookupB_mem hlk, htf⟩

theorem bucket_entry_eq {r : String → List String} {tasks : List (DownloadTask α)}
    {k : String × String} {l : List (DownloadTask α)}
    (hp : (k, l) ∈ serverBuckets r tasks) : l = keyFilter r k tasks := by
  have hlk := mem_lookupB (nodup_keys_serverBuckets r tasks) hp
  rw [lookupB_serverBuckets] at hlk
  by_cases he : (keyFilter r k tasks).isEmpty
  · rw [if_pos he] at hlk
    cases hlk
  · rw [if_neg he] at hlk
    exact (Option.some.injEq .. ▸ hlk).symm

theorem mem_bucket_key {r : String → List String} {tasks : List (DownloadTask α)}
    {k : String × String} {l : List (DownloadTask α)} {t : DownloadTask α}
    (hp : (k, l) ∈ serverBuckets r tasks) (ht : t ∈ l) : k = bucketKey r t := by
  have hl := bucket_entry_eq hp
  subst hl
  have hmem := List.mem_filter.1 ht
  have h2 : bucketKey r t = k := by simpa using hmem.2
  exact h2.symm

theorem bucket_unique {r : String → List String} {tasks : List (DownloadTask α)}
    {p q : (String × String) × List (DownloadTask α)}
    (hp : p ∈ serverBuckets r tasks) (hq : q ∈ serverBuckets r tasks)
    {t : DownloadTask α} (htp : t ∈ p.2) (htq : t ∈ q.2) : p = q := by
  obtain ⟨kp, lp⟩ := p
  obtain ⟨kq, lq⟩ := q
  have h1 : kp = bucketKey r t := mem_bucket_key hp htp
  have h2 : kq = bucketKey r t := mem_bucket_key hq htq
  have hk : kp = kq := h1.trans h2.symm
  subst hk
  have e1 := bucket_entry_eq hp
  have e2 := bucket_entry_eq hq
  rw [Prod.mk.injEq]
  exact ⟨rfl, e1.trans e2.symm⟩

/-- C5: for every finite task list and resolution mapping, the bucketing
loop puts every task into the bucket of its key, that bucket is unique,
the bucket sizes add up to the number of tasks (no duplication, no
loss), and a task whose host has no resolved addresses lands in the
bucket keyed `(host, "unresolved")`. -/
theorem spec_C5_bucket_partition (r : String → List String)
    (tasks : List (DownloadTask α)) :
    ((serverBuckets r tasks).map (fun p => p.2.length)).sum = tasks.length ∧
    (∀ t ∈ tasks, ∃ l, (bucketKey r t, l) ∈ serverBuckets r tasks ∧ t ∈ l) ∧
    (∀ p ∈ serverBuckets r tasks, ∀ q ∈ serverBuckets r tasks,
      ∀ t : DownloadTask α, t ∈ p.2 → t ∈ q.2 → p = q) ∧
    (∀ t ∈ tasks, r t.host = [] →
      ∃ l, ((t.host, "unresolved"), l) ∈ serverBuckets r tasks ∧ t ∈ l) := by
  refine ⟨serverBuckets_sizes r tasks, ?_, ?_, ?_⟩
  · intro t ht
    exact mem_bucket_self ht
  · intro p hp q hq t htp htq
    exact bucket_unique hp hq htp htq
  · intro t ht hr
    have hk : bucketKey r t = (t.host, "unresolved") := by
      simp [bucketKey, bucketIP, hr]
    have := mem_bucket_self (r := r) ht
    rwa [hk] at this

theorem spec_C5_bucket_partition_witness :
    ((serverBuckets demoResolve [demoTask1, demoTask2, demoTask3]).map
      (fun p => p.2.length)).sum = 3 ∧
    (∃ l, (("dxhf2.darc.de", "unresolved"), l) ∈
      serverBuckets demoResolve [demoTask1, demoTask2, demoTask3] ∧ demoTask3 ∈ l) := by
  have h := spec_C5_bucket_partition demoResolve [demoTask1, demoTask2, demoTask3]
  refine ⟨by simpa using h.1, ?_⟩
  have h3 := h.2.2.2 demoTask3 (by simp) (by decide)
  simpa [demoTask3] using h3

/-- C6 as stated is false: the bucket key is the pair
`(hostname, address)`, so two distinct hostnames that resolve to the
same address still end up in two different buckets.  Concretely, with
both hosts resolving to `203.0.113.7`, the loop produces two buckets
and no bucket contains both tasks. -/
theorem spec_C6_shared_server_counterexample :
    demoTask1.host ≠ demoTask3.host ∧
    bucketIP demoResolveShared demoTask1.host =
      bucketIP demoResolveShared demoTask3.host ∧
    (serverBuckets demoResolveShared [demoTask1, demoTask3]).length = 2 ∧
    ¬ (∃ p ∈ serverBuckets demoResolveShared [demoTask1, demoTask3],
        demoTask1 ∈ p.2 ∧ demoTask3 ∈ p.2) := by
  decide

/-- C6 (amended): tasks of two distinct hostnames that resolve to the
same address `a` are kept apart: each hostname's tasks all land in its
own bucket, keyed by the pair of that hostname with `a`, the two keys
are different, and no single bucket holds tasks of both hostnames. -/
theorem spec_C6_shared_server_amended (r : String → List String)
    (tasks : List (DownloadTask α)) (h1 h2 a : String) (hne : h1 ≠ h2)
    (ha1 : bucketIP r h1 = a) (ha2 : bucketIP r h2 = a) :
    ((h1, a) : String × String) ≠ (h2, a) ∧
    (∀ t ∈ tasks, t.host = h1 →
      ∃ l, ((h1, a), l) ∈ serverBuckets r tasks ∧ t ∈ l) ∧
    (∀ t ∈ tasks, t.host = h2 →
      ∃ l, ((h2, a), l) ∈ serverBuckets r tasks ∧ t ∈ l) ∧
    (∀ p ∈ serverBuckets r tasks,
      ¬ ((∃ t ∈ p.2, t.host = h1) ∧ (∃ t2 ∈ p.2, t2.host = h2))) := by
  refine ⟨by simp [hne], ?_, ?_, ?_⟩
  · intro t ht hth
    have hk : bucketKey r t = (h1, a) := by simp [bucketKey, hth, ha1]
    have := mem_bucket_self (r := r) ht
    rwa [hk] at this
  · intro t ht hth
    have hk : bucketKey r t = (h2, a) := by simp [bucketKey, hth, ha2]
    have := mem_bucket_self (r := r) ht
    rwa [hk] at this
  · rintro ⟨k, l⟩ hp ⟨⟨t, htl, hth1⟩, ⟨t2, ht2l, hth2⟩⟩
    have e1 := mem_bucket_key hp htl
    have e2 := mem_bucket_key hp ht2l
    have : bucketKey r t = bucketKey r t2 := e1.symm.trans e2
    apply hne
    have := congrArg Prod.fst this
    simpa [bucketKey, hth1, hth2] using this

theorem spec_C6_shared_server_amended_witness :
    (("cqww.com", "203.0.113.7") : String × String) ≠ ("dxhf2.darc.de", "203.0.113.7") ∧
    (∃ l, (("cqww.com", "203.0.113.7"), l) ∈
      serverBuckets demoResolveShared [demoTask1, demoTask3] ∧ demoTask1 ∈ l) ∧
    (∃ l, (("dxhf2.darc.de", "203.0.113.7"), l) ∈
      serverBuckets demoResolveShared [demoTask1, demoTask3] ∧ demoTask3 ∈ l) := by
  have h := spec_C6_shared_server_amended demoResolveShared [demoTask1, demoTask3]
    "cqww.com" "dxhf2.darc.de" "203.0.113.7" (by decide) (by decide) (by decide)
  exact ⟨h.1, by simpa [demoTask1] using h.2.1 demoTask1 (by simp) rfl,
    by simpa [demoTask3] using h.2.2.1 demoTask3 (by simp) rfl⟩

/-- `bucketIP` depends only on the first resolved address. -/
theorem bucketIP_congr {r r2 : String → List String} {h : String}
    (hh : (r h).head? = (r2 h).head?) : bucketIP r h = bucketIP r2 h := by
  unfold bucketIP
  cases hr : r h <;> cases hr2 : r2 h <;>
    rw [hr, hr2] at hh <;> simp_all

/-- C10: all tasks sharing one hostname land in one single bucket, keyed
by the hostname paired with the first resolved address (or the
`"unresolved"` sentinel); and the whole bucketing result depends on the
resolution mapping only through each host's first address. -/
theorem spec_C10_first_address_bucketing (r r2 : String → List String)
    (tasks : List (DownloadTask α)) :
    (∀ t ∈ tasks, ∀ t2 ∈ tasks, t.host = t2.host →
      ∃ l, ((t.host, bucketIP r t.host), l) ∈ serverBuckets r tasks ∧
        t ∈ l ∧ t2 ∈ l) ∧
    ((∀ h, (r h).head? = (r2 h).head?) →
      serverBuckets r tasks = serverBuckets r2 tasks) := by
  constructor
  · intro t ht t2 ht2 hh
    obtain ⟨l, hl, htl⟩ := mem_bucket_self (r := r) ht
    obtain ⟨l2, hl2, ht2l⟩ := mem_bucket_self (r := r) ht2
    have hkeys : bucketKey r t = bucketKey r t2 := by
      simp [bucketKey, hh]
    rw [← hkeys] at hl2
    have e1 := bucket_entry_eq hl
    have e2 := bucket_entry_eq hl2
    have hl2eq : l2 = l := e2.trans e1.symm
    refine ⟨l, ?_, htl, ?_⟩
    · have hk : bucketKey r t = (t.host, bucketIP r t.host) := rfl
      rwa [hk] at hl
    · rw [← hl2eq] at htl ⊢
      exact ht2l
  · intro hheads
    have hbk : ∀ t : DownloadTask α, bucketKey r t = bucketKey r2 t := by
      intro t
      simp [bucketKey, bucketIP_congr (hheads t.host)]
    simp only [serverBuckets, hbk]

theorem spec_C10_first_address_bucketing_witness :
    (∃ l, (("cqww.com", "104.21.4.4"), l) ∈
      serverBuckets demoResolve [demoTask1, demoTask2] ∧
      demoTask1 ∈ l ∧ demoTask2 ∈ l) ∧
    serverBuckets demoResolve [demoTask1, demoTask2] =
      serverBuckets demoResolveOne [demoTask1, demoTask2] := by
  have h := spec_C10_first_address_bucketing demoResolve demoResolveOne
    [demoTask1, demoTask2]
  constructor
  · have h1 := h.1 demoTask1 (by simp) demoTask2 (by simp) (by decide)
    simpa [demoTask1, bucketIP, demoResolve] using h1
  · refine h.2 ?_
    intro hst
    by_cases hc : hst = "cqww.com" <;> simp [demoResolve, demoResolveOne, hc]

/-- C7 as stated is false: nothing catches the action's exception at the
task-dispatch boundary.  With a bucket of two tasks whose first action
raises, both actions still run, but the exception escapes the result
loop of `process_host` instead of being caught and logged there. -/
theorem spec_C7_exception_counterexample :
    (processHost none [demoErrTask, demoOkTask]).1
      = [Except.error "HTTP 500", Except.ok ()] ∧
    (processHost none [demoErrTask, demoOkTask]).2 = Except.error "HTTP 500" ∧
    ¬ ((processHost none [demoErrTask, demoOkTask]).2 = Except.ok ()) := by
  refine ⟨rfl, rfl, ?_⟩
  intro h
  simp [processHost, runTasks, wrappedTask, resultLoop, demoErrTask, demoOkTask] at h

theorem resultLoop_ok_iff (rs : List (Except ε Unit)) :
    resultLoop rs = Except.ok () ↔ ∀ r ∈ rs, r = Except.ok () := by
  induction rs with
  | nil => simp [resultLoop]
  | cons r rs ih =>
      cases r with
      | ok u =>
          cases u
          simp [resultLoop, ih]
      | error e => simp [resultLoop]

theorem runTasks_results (lim : Option AdaptiveLimiter)
    (tasks : List (DownloadTask (Except ε Unit))) :
    (runTasks lim tasks).2 = tasks.map (fun t => t.action) := by
  induction tasks generalizing lim with
  | nil => simp [runTasks]
  | cons t ts ih => simp [runTasks, wrappedTask, ih]

/-- C7 (amended): an exception from one task's action is NOT caught at
the task-dispatch boundary — it escapes the bucket's result loop, which
returns cleanly exactly when every action in the bucket succeeded.  All
sibling tasks of the bucket still run to completion (every submitted
action executes and its outcome is collected), and buckets are processed
by independent `process_host` calls, so other buckets are unaffected. -/
theorem spec_C7_exception_amended (lim : Option AdaptiveLimiter)
    (tasks : List (DownloadTask (Except ε Unit))) :
    (processHost lim tasks).1 = tasks.map (fun t => t.action) ∧
    ((processHost lim tasks).2 = Except.ok () ↔
      ∀ t ∈ tasks, t.action = Except.ok ()) := by
  have hres : (processHost lim tasks).1 = tasks.map (fun t => t.action) := by
    simp [processHost, runTasks_results]
  refine ⟨hres, ?_⟩
  have h2 : (processHost lim tasks).2 = resultLoop (tasks.map (fun t => t.action)) := by
    simp [processHost, runTasks_results]
  rw [h2, resultLoop_ok_iff]
  simp

theorem spec_C7_exception_amended_witness :
    (processHost none [demoErrTask, demoOkTask]).1
      = [demoErrTask.action, demoOkTask.action] ∧
    ¬ ((processHost none [demoErrTask, demoOkTask]).2 = Except.ok ()) := by
  have h := spec_C7_exception_amended none [demoErrTask, demoOkTask]
  refine ⟨by simpa using h.1, ?_⟩
  intro hok
  have hall := h.2.1 hok demoErrTask (by simp)
  simp [demoErrTask] at hall

/-- C8 as stated is false: the discovery loop has no try/except around
`fut.result()`.  With one provider raising and one returning 5 tasks,
the loop ends in the provider's exception — in either completion
order — instead of proceeding with the 5 tasks. -/
theorem spec_C8_provider_error_counterexample :
    discoveryLoop ([] : List (DownloadTask Unit))
      [Except.error "discovery failed", Except.ok demoFiveTasks]
      = Except.error "discovery failed" ∧
    discoveryLoop ([] : List (DownloadTask Unit))
      [Except.ok demoFiveTasks, Except.error "discovery failed"]
      = Except.error "discovery failed" ∧
    ¬ (discoveryLoop ([] : List (DownloadTask Unit))
      [Except.error "discovery failed", Except.ok demoFiveTasks]
      = Except.ok demoFiveTasks) := by
  refine ⟨rfl, rfl, ?_⟩
  intro h
  simp [discoveryLoop] at h

theorem discoveryLoop_error (acc : List (DownloadTask α))
    (results : List (Except ε (List (DownloadTask α))))
    (h : ∃ r ∈ results, exceptOk r = false) :
    ∃ e, discoveryLoop acc results = Except.error e := by
  induction results generalizing acc with
  | nil => simp at h
  | cons r rs ih =>
      cases r with
      | ok ts =>
          have h2 : ∃ r ∈ rs, exceptOk r = false := by
            rcases h with ⟨r, hr, hf⟩
            rcases List.mem_cons.1 hr with hr | hr
            · subst hr
              simp [exceptOk] at hf
            · exact ⟨r, hr, hf⟩
          simpa [discoveryLoop] using ih (acc ++ ts) h2
      | error e => exact ⟨e, rfl⟩

theorem discoveryLoop_all_ok (acc : List (DownloadTask α))
    (results : List (Except ε (List (DownloadTask α))))
    (h : ∀ r ∈ results, exceptOk r = true) :
    discoveryLoop acc results = Except.ok (acc ++ (results.map okList).flatten) := by
  induction results generalizing acc with
  | nil => simp [discoveryLoop]
  | cons r rs ih =>
      cases r with
      | ok ts =>
          have h2 : ∀ r ∈ rs, exceptOk r = true := fun r hr => h r (List.mem_cons_of_mem _ hr)
          simp [discoveryLoop, ih (acc ++ ts) h2, okList]
      | error e =>
          have := h (Except.error e) (List.mem_cons_self _ _)
          simp [exceptOk] at this

/-- C8 (amended): an exception from one provider's discovery is NOT
caught at the provider-dispatch boundary: the result loop ends in that
exception (aborting the run before bucketing) whenever any provider
raised, and only when every provider returns does the run proceed — then
with exactly the concatenation of the providers' task lists. -/
theorem spec_C8_provider_error_amended
    (results : List (Except ε (List (DownloadTask α)))) :
    ((∃ r ∈ results, exceptOk r = false) →
      ∃ e, discoveryLoop [] results = Except.error e) ∧
    ((∀ r ∈ results, exceptOk r = true) →
      discoveryLoop [] results = Except.ok (results.map okList).flatten) := by
  constructor
  · exact discoveryLoop_error [] results
  · intro h
    simpa using discoveryLoop_all_ok [] results h

theorem spec_C8_provider_error_amended_witness :
    (∃ e, discoveryLoop ([] : List (DownloadTask Unit))
      [Except.error "discovery failed", Except.ok demoFiveTasks]
      = Except.error e) ∧
    discoveryLoop ([] : List (DownloadTask Unit))
      [(Except.ok demoFiveTasks : Except String (List (DownloadTask Unit)))]
      = Except.ok demoFiveTasks := by
  constructor
  · exact (spec_C8_provider_error_amended
      [Except.error "discovery failed", Except.ok demoFiveTasks]).1
      ⟨Except.error "discovery failed", by simp, rfl⟩
  · have h := (spec_C8_provider_error_amended
      [(Except.ok demoFiveTasks : Except String (List (DownloadTask Unit)))]).2
      (by intro r hr; simp at hr; simp [hr, exceptOk])
    simpa [okList] using h

/-- C9 as stated is false: a run whose single task merely skipped an
already-existing destination (no output newly produced) still exits 0
(success); `main` never aggregates any per-task "newly written" signal. -/
theorem spec_C9_exit_code_counterexample :
    mainExitCode [demoTask1] [TaskOutcome.skipped] = 0 ∧
    TaskOutcome.wrote ∉ [TaskOutcome.skipped] := by
  decide

/-- C9 (amended): the run's exit code does not depend on the tasks'
outcomes at all; it reports failure (1) exactly when discovery produced
zero tasks and success (0) exactly when at least one task was
discovered — even if every task failed or skipped. -/
theorem spec_C9_exit_code_amended (tasks : List (DownloadTask α))
    (outcomes outcomes2 : List TaskOutcome) :
    mainExitCode tasks outcomes = mainExitCode tasks outcomes2 ∧
    (mainExitCode tasks outcomes = 0 ↔ tasks ≠ []) ∧
    (mainExitCode tasks outcomes = 1 ↔ tasks = []) := by
  unfold mainExitCode
  by_cases h : tasks = [] <;> simp [h]

theorem spec_C9_exit_code_amended_witness :
    mainExitCode [demoTask1] [TaskOutcome.skipped]
      = mainExitCode [demoTask1] [TaskOutcome.wrote] ∧
    mainExitCode [demoTask1] [TaskOutcome.skipped] = 0 ∧
    mainExitCode ([] : List (DownloadTask Unit)) [] = 1 := by
  have h1 := spec_C9_exit_code_amended [demoTask1] [TaskOutcome.skipped] [TaskOutcome.wrote]
  have h2 := spec_C9_exit_code_amended ([] : List (DownloadTask Unit)) [] []
  exact ⟨h1.1, h1.2.1.2 (by simp), h2.2.2.2 rfl⟩

end PubLogs
